import Mathlib

/-!
Verification of the core of the MultiAgent4VD repository: the SARIF artifact
locator (`src/sarif_utils.py`) and the heuristic suspicious-region selector and
knowledge-base lookup (`src/tools.py`).

Python strings are modelled as Lean `String`s; all character-level operations
are carried out on `List Char` so that every definition is executable and
kernel-reducible.  Percent-decoding treats each decoded `%XX` byte as one
character (sufficient for the ASCII paths the claims concern).  The filesystem
(`os.path.isfile`) and the platform test (`os.name == "nt"`) are modelled by an
explicit `Sys` value carrying an arbitrary `isFile : String → Bool` predicate
and an `nt : Bool` flag.  Python's newline splitting is modelled for `\n`
line terminators.
-/

/-- ASCII lowercasing of one character, as Python `str.lower` acts on ASCII. -/
def lowerChar (c : Char) : Char :=
  if 'A' ≤ c ∧ c ≤ 'Z' then Char.ofNat (c.toNat + 32) else c

/-- Python `s.lower()` (ASCII fragment). -/
def strLower (s : String) : String :=
  String.mk (s.toList.map lowerChar)

/-- Substring occurrence test on character lists: does `needle` occur
contiguously inside `hay`? -/
def listContains (needle hay : List Char) : Bool :=
  match hay with
  | [] => needle.isEmpty
  | c :: rest => needle.isPrefixOf (c :: rest) || listContains needle rest

/-- Python `needle in hay` on strings: substring test. -/
def pyIn (needle hay : String) : Bool :=
  listContains needle.toList hay.toList

/-- Python `s.startswith(pre)`. -/
def strStartsWith (s pre : String) : Bool :=
  pre.toList.isPrefixOf s.toList

/-- Python `s.endswith(suf)`. -/
def strEndsWith (s suf : String) : Bool :=
  suf.toList.isSuffixOf s.toList

/-- Python `sep.join(xs)`. -/
def joinWith (sep : String) : List String → String
  | [] => ""
  | [x] => x
  | x :: y :: xs => x ++ sep ++ joinWith sep (y :: xs)

/-- Auxiliary scanner for `splitlines`: accumulates the current line reversed. -/
def splitlinesAux : List Char → List Char → List String
  | [], acc => if acc.isEmpty then [] else [String.mk acc.reverse]
  | '\n' :: rest, acc => String.mk acc.reverse :: splitlinesAux rest []
  | c :: rest, acc => splitlinesAux rest (c :: acc)

/-- Python `s.splitlines()` for `\n`-terminated text: splits at every newline
and produces no trailing empty line for a trailing newline. -/
def splitlines (s : String) : List String :=
  splitlinesAux s.toList []

/-- Auxiliary scanner for `splitOnSlash`. -/
def splitOnSlashAux : List Char → List Char → List String
  | [], acc => [String.mk acc.reverse]
  | '/' :: rest, acc => String.mk acc.reverse :: splitOnSlashAux rest []
  | c :: rest, acc => splitOnSlashAux rest (c :: acc)

/-- Python `s.split("/")` (keeps empty components, as CPython does). -/
def splitOnSlash (s : String) : List String :=
  splitOnSlashAux s.toList []

/-- Value of a hexadecimal digit, if any. -/
def hexVal (c : Char) : Option Nat :=
  if '0' ≤ c ∧ c ≤ '9' then some (c.toNat - 48)
  else if 'a' ≤ c ∧ c ≤ 'f' then some (c.toNat - 87)
  else if 'A' ≤ c ∧ c ≤ 'F' then some (c.toNat - 55)
  else none

/-- Percent-decoding as in `urllib.parse.unquote`: a `%` followed by two hex
digits becomes the corresponding byte (modelled as a character); malformed
`%`-sequences are kept verbatim. -/
def unquoteChars : List Char → List Char
  | '%' :: a :: b :: rest =>
    match hexVal a, hexVal b with
    | some x, some y => Char.ofNat (16 * x + y) :: unquoteChars rest
    | _, _ => '%' :: unquoteChars (a :: b :: rest)
  | c :: rest => c :: unquoteChars rest
  | [] => []

/-- The Windows-only adjustment in `_file_from_file_uri`: if the decoded path
looks like `/D:/...` (leading separator, drive letter, colon, length > 3),
strip the leading separator.  On non-Windows (`nt = false`) nothing happens. -/
def ntStrip (nt : Bool) (cs : List Char) : List Char :=
  if nt then
    match cs with
    | '/' :: c1 :: ':' :: c3 :: rest => c1 :: ':' :: c3 :: rest
    | _ => cs
  else cs

/-- `_file_from_file_uri` from `src/sarif_utils.py`: for a `file://` URI,
extract the URL path component (after the authority, before any query or
fragment), percent-decode it, and apply the Windows drive-letter adjustment.
Returns `none` when the URI does not carry the `file://` scheme. -/
def file_from_file_uri (nt : Bool) (uri : String) : Option String :=
  if strStartsWith uri "file://" then
    let rest := uri.toList.drop 7
    let path0 := (rest.takeWhile (fun c => !(c == '#') && !(c == '?'))).dropWhile (fun c => !(c == '/'))
    some (String.mk (ntStrip nt (unquoteChars path0)))
  else none

/-- Python `s.replace("\\", "/")`. -/
def bslashToSlash (s : String) : String :=
  String.mk (s.toList.map (fun c => if c == '\\' then '/' else c))

/-- POSIX `os.path.join` for two components, as in CPython `posixpath.join`. -/
def pyJoin (a b : String) : String :=
  if strStartsWith b "/" then b
  else if a == "" || strEndsWith a "/" then a ++ b
  else a ++ "/" ++ b

/-- One step of CPython `posixpath.normpath`'s component loop. -/
def npStep (hasInitialSlash : Bool) (new : List String) (comp : String) : List String :=
  if comp == "" || comp == "." then new
  else if !(comp == "..") || (!hasInitialSlash && new.isEmpty) ||
          (!new.isEmpty && new.getLast? == some "..") then new ++ [comp]
  else if !new.isEmpty then new.dropLast
  else new

/-- Number of initial slashes CPython `posixpath.normpath` preserves. -/
def initialSlashCount (p : String) : Nat :=
  if strStartsWith p "/" then
    (if strStartsWith p "//" && !(strStartsWith p "///") then 2 else 1)
  else 0

/-- CPython `posixpath.normpath`: collapse empty and `.` components, resolve
`..` where possible, preserve the initial slashes. -/
def normpath (p : String) : String :=
  if p == "" then "."
  else
    let isl := initialSlashCount p
    let comps := (splitOnSlash p).foldl (npStep (!(isl == 0))) []
    let res := String.mk (List.replicate isl '/') ++ joinWith "/" comps
    if res == "" then "." else res

/-- The app-level resolution configuration (`cfg["app"]` in the source):
the `uriBaseId_map` dictionary, the `project_root` string, and the
`prefer_absolute_uri` flag (whose dictionary default in the source is true). -/
structure Cfg where
  uriBaseId_map : List (String × String)
  project_root : String
  prefer_absolute_uri : Bool
deriving DecidableEq

/-- One SARIF artifact location: an optional URI and optional `uriBaseId`. -/
structure Artifact where
  uri : Option String
  uriBaseId : Option String
deriving DecidableEq

/-- The ambient system: the filesystem's regular-file test (`os.path.isfile`)
and whether the platform is Windows (`os.name == "nt"`). -/
structure Sys where
  isFile : String → Bool
  nt : Bool

/-- `_resolve_with_base` from `src/sarif_utils.py`: pick the base directory
from the `uriBaseId_map` (an empty or absent `uriBaseId`, or one missing from
the map, falls back to `project_root`), replace backslashes in the relative
URI by slashes, join and normalize. -/
def resolve_with_base (rel_uri : String) (uri_base_id : Option String) (cfg : Cfg) : String :=
  let base_dir :=
    match uri_base_id with
    | some b =>
      if b == "" then cfg.project_root
      else
        match List.lookup b cfg.uriBaseId_map with
        | some d => d
        | none => cfg.project_root
    | none => cfg.project_root
  normpath (pyJoin base_dir (bslashToSlash rel_uri))

/-- Tier 1 of `resolve_artifact_location`: if the URI starts with `file://`
and the config prefers absolute URIs, decode it and accept the decoded path
when it is nonempty and an existing regular file. -/
def tryFileUri (sys : Sys) (cfg : Cfg) (uri : String) : Option String :=
  if strStartsWith uri "file://" && cfg.prefer_absolute_uri then
    match file_from_file_uri sys.nt uri with
    | some p => if !(p == "") && sys.isFile p then some p else none
    | none => none
  else none

/-- `resolve_artifact_location` from `src/sarif_utils.py`: the four-tier
resolution.  A missing or empty URI yields `none`; tier 1 is the preferred
absolute `file://` decoding; tier 2 joins with the `uriBaseId`-mapped base;
tier 3 joins with `project_root`; tier 4 returns the decoded `file://` path
unchecked; the final fallback returns the tier-2 join unchecked. -/
def resolve_artifact_location (art : Artifact) (cfg : Cfg) (sys : Sys) : Option String :=
  match art.uri with
  | none => none
  | some uri =>
    if uri == "" then none
    else
      match tryFileUri sys cfg uri with
      | some p => some p
      | none =>
        let abs_path := resolve_with_base uri art.uriBaseId cfg
        if sys.isFile abs_path then some abs_path
        else
          let fallback := normpath (pyJoin cfg.project_root uri)
          if sys.isFile fallback then some fallback
          else if strStartsWith uri "file://" then file_from_file_uri sys.nt uri
          else some abs_path

/-- `extract_result_files`'s inner loop from `src/sarif_utils.py`, before
deduplication: a `ScanResult`'s locations are resolved independently; a
missing artifact location is skipped (`if not art: continue`), and a falsy
resolution (`None` or the empty string, `if p:`) is omitted. -/
def resolvedPaths (locs : List (Option Artifact)) (cfg : Cfg) (sys : Sys) : List String :=
  locs.filterMap (fun loc => loc.bind (fun art =>
    (resolve_artifact_location art cfg sys).bind (fun p => if p == "" then none else some p)))

/-- The order-preserving deduplication loop at the end of
`extract_result_files` (`seen` set plus `dedup` list). -/
def dedupGo (seen : List String) : List String → List String
  | [] => []
  | p :: ps => if p ∈ seen then dedupGo seen ps else p :: dedupGo (p :: seen) ps

/-- One SARIF result: an optional rule identifier and its location list (each
location modelled as `none` when it carries no artifact location). -/
structure ScanResult where
  ruleId : Option String
  locations : List (Option Artifact)

/-- `extract_result_files` from `src/sarif_utils.py`: resolve every location
and deduplicate preserving first-seen order. -/
def extract_result_files (res : ScanResult) (cfg : Cfg) (sys : Sys) : List String :=
  dedupGo [] (resolvedPaths res.locations cfg sys)

/-- Python slice `l[:m]` on a sequence of any element type: for nonnegative
`m` the first `m` elements (clamped at the length); for negative `m` all but
the last `|m|` elements (clamped at zero). -/
def pyTakeSlice {α : Type} (m : Int) (l : List α) : List α :=
  if m < 0 then l.take (((l.length : Int) + m).toNat) else l.take m.toNat

/-- `safe_read_text` from `src/sarif_utils.py`.  The outcome of
`open`/`read` (with `errors="ignore"`) is modelled as an `Option String`:
`none` when any exception occurs (missing file, permission error, bad
encoding name), `some s` on success.  The text is truncated by the Python
slice `s[:max_chars]` whenever `len(s) > max_chars`. -/
def safe_read_text (readResult : Option String) (max_chars : Int) : String :=
  match readResult with
  | none => ""
  | some s => if (s.length : Int) > max_chars then String.mk (pyTakeSlice max_chars s.toList) else s

/-- One record of the simulated vulnerability knowledge base consumed by
`FakeToolset.retrieve_vuln_kb` in `src/tools.py`. -/
structure KBItem where
  id : String
  cwe : List String
  patterns : List String
  detection_hints : List String
  fixes : List String
deriving DecidableEq

/-- The searchable text of one knowledge-base record, as built in
`retrieve_vuln_kb`: the space-joined `cwe`, `patterns`, `detection_hints`,
`fixes` lists and the identifier, space-joined and lowercased. -/
def kbText (item : KBItem) : String :=
  strLower (joinWith " " [joinWith " " item.cwe, joinWith " " item.patterns,
    joinWith " " item.detection_hints, joinWith " " item.fixes, item.id])

/-- Is a character in the class `[a-z0-9\-\._/]` of the tokenizing regular
expression in `retrieve_vuln_kb`? -/
def isTokChar (c : Char) : Bool :=
  ('a' ≤ c ∧ c ≤ 'z') ∨ ('0' ≤ c ∧ c ≤ '9') ∨ c = '-' ∨ c = '.' ∨ c = '_' ∨ c = '/'

/-- Scanner extracting the maximal runs of token characters, i.e.
`re.findall(r"[a-z0-9\-\._/]+", q)` on an already lowercased `q`. -/
def tokensAux : List Char → List Char → List String
  | [], acc => if acc.isEmpty then [] else [String.mk acc.reverse]
  | c :: rest, acc =>
    if isTokChar c then tokensAux rest (c :: acc)
    else if acc.isEmpty then tokensAux rest []
    else String.mk acc.reverse :: tokensAux rest []

/-- The query tokens of `retrieve_vuln_kb` (the query is lowercased first). -/
def queryTokens (q : String) : List String :=
  tokensAux q.toList []

/-- The record-selection loop of `FakeToolset.retrieve_vuln_kb` in
`src/tools.py`, on the lowercased query `q`: a record hits when its
lowercased identifier occurs in `q` (then the token test is skipped,
`continue`), or else when some token of `q` occurs in the record's text. -/
def retrieveLoop (q : String) : List KBItem → List KBItem
  | [] => []
  | item :: rest =>
    if pyIn (strLower item.id) q then item :: retrieveLoop q rest
    else if (queryTokens q).any (fun tok => pyIn tok (kbText item)) then item :: retrieveLoop q rest
    else retrieveLoop q rest

/-- `FakeToolset.retrieve_vuln_kb`: lowercase the query and run the loop
over the knowledge base, returning the list of hits. -/
def retrieve_vuln_kb (kb : List KBItem) (query : String) : List KBItem :=
  retrieveLoop (strLower query) kb

/-- The declarative filter stated by the specification for the knowledge-base
lookup: a record is kept iff its identifier matches the query case-insensitively
as a substring, or some token of the query occurs in the concatenation of the
record's fields and identifier. -/
def kbFilterSpec (kb : List KBItem) (query : String) : List KBItem :=
  kb.filter (fun item =>
    pyIn (strLower item.id) (strLower query) ||
      (queryTokens (strLower query)).any (fun tok => pyIn tok (kbText item)))

/-- A suspicious region as emitted by `FakeToolset.select_suspicious`:
1-indexed inclusive line bounds and the joined text of those lines. -/
structure SuspiciousRegion where
  start_line : Nat
  end_line : Nat
  text : String
deriving DecidableEq

/-- The primary keyword scan of `select_suspicious`: the 0-indexed lines whose
lowercased text contains some lowercased configured keyword. -/
def primaryHits (keywords : List String) (lines : List String) : List Nat :=
  lines.enum.filterMap (fun p =>
    if keywords.any (fun kw => pyIn (strLower kw) (strLower p.2)) then some p.1 else none)

/-- The seven built-in fallback keywords of `select_suspicious`. -/
def fallbackKeywords : List String :=
  ["regex", "pattern", "compile", "file", "path", "input", "sanitize"]

/-- The fallback scan of `select_suspicious`: only the fallback keywords that
occur in the lowercased rule query are considered, and a line hits when it
contains one of them (case-insensitively). -/
def fallbackHits (q : String) (lines : List String) : List Nat :=
  lines.enum.filterMap (fun p =>
    if (fallbackKeywords.filter (fun k => pyIn k (strLower q))).any
        (fun k => pyIn k (strLower p.2)) then some p.1 else none)

/-- The hit lines actually used by `select_suspicious`: the primary scan, or
the fallback scan when the primary scan found nothing. -/
def usedHits (keywords : List String) (q : String) (lines : List String) : List Nat :=
  let ph := primaryHits keywords lines
  if ph = [] then fallbackHits q lines else ph

/-- The coercion `if context_window <= 0: context_window = 10`. -/
def effectiveWindow (cw : Int) : Nat :=
  if cw ≤ 0 then 10 else cw.toNat

/-- The context window around each hit line: `[h - w, h + w]` clamped to the
file bounds (`max(0, ·)` is natural subtraction; the upper clamp `min(n-1, ·)`
is only reached with a nonempty file, so `n ≥ 1`). -/
def hitWindows (w n : Nat) (hits : List Nat) : List (Nat × Nat) :=
  hits.map (fun h => (h - w, min (n - 1) (h + w)))

/-- One step of the merge loop of `select_suspicious`: a window starting at
most one past the end of the last merged range extends that range's end to the
larger of the two ends; otherwise it opens a new range. -/
def mergeStep (ranges : List (Nat × Nat)) (se : Nat × Nat) : List (Nat × Nat) :=
  match ranges.getLast? with
  | some last =>
    if se.1 ≤ last.2 + 1 then ranges.dropLast ++ [(last.1, max last.2 se.2)]
    else ranges ++ [se]
  | none => [se]

/-- The left-to-right merge loop of `select_suspicious`. -/
def mergeRanges (ws : List (Nat × Nat)) : List (Nat × Nat) :=
  ws.foldl mergeStep []

/-- The merged ranges computed by `select_suspicious` for given keyword rules,
rule query, context window and file lines. -/
def selRanges (keywords : List String) (q : String) (cw : Int) (lines : List String) : List (Nat × Nat) :=
  mergeRanges (hitWindows (effectiveWindow cw) lines.length (usedHits keywords q lines))

/-- Emission of one region: 1-indexed inclusive bounds and the newline-joined
text of lines `s` through `e` (Python `"\n".join(lines[s:e+1])`). -/
def mkSnippet (lines : List String) (se : Nat × Nat) : SuspiciousRegion :=
  ⟨se.1 + 1, se.2 + 1, joinWith "\n" ((lines.drop se.1).take (se.2 + 1 - se.1))⟩

/-- `FakeToolset.select_suspicious` from `src/tools.py`, reduced to its data
product (the snippet list): split the file into lines, scan for hits (primary
then fallback), window and merge, truncate by the Python slice
`ranges[:max_snippets]`, and emit the regions. -/
def select_suspicious (keywords : List String) (file_content codeql_query : String)
    (context_window max_snippets : Int) : List SuspiciousRegion :=
  let lines := splitlines file_content
  (pyTakeSlice max_snippets (selRanges keywords codeql_query context_window lines)).map
    (mkSnippet lines)


/-- The loop of `retrieve_vuln_kb` computes the declarative filter, for any
(lowercased) query. -/
theorem retrieveLoop_eq_filter (q : String) (kb : List KBItem) :
    retrieveLoop q kb = kb.filter (fun item =>
      pyIn (strLower item.id) q ||
        (queryTokens q).any (fun tok => pyIn tok (kbText item))) := by
  induction kb with
  | nil => rfl
  | cons item rest ih =>
    rw [List.filter_cons]
    cases hx1 : pyIn (strLower item.id) q with
    | true => simp [retrieveLoop, hx1, ih]
    | false =>
      cases hx2 : (queryTokens q).any (fun tok => pyIn tok (kbText item)) with
      | true => simp [retrieveLoop, hx1, hx2, ih]
      | false => simp [retrieveLoop, hx1, hx2, ih]

/-- Claim C9: `retrieve_vuln_kb` returns exactly the knowledge-base records
whose lowercased identifier occurs as a substring of the lowercased query, or
for which some token of the query (maximal run of `[a-z0-9\-\._/]` characters)
occurs in the lowercased concatenation of the record's cwe, pattern,
detection-hint and fix fields and its identifier. -/
theorem C9_kb_lookup (kb : List KBItem) (query : String) :
    retrieve_vuln_kb kb query = kbFilterSpec kb query := by
  unfold retrieve_vuln_kb kbFilterSpec
  exact retrieveLoop_eq_filter (strLower query) kb

/-- First-occurrence deduplication in its transparent form: keep the head,
erase its later duplicates, recurse. -/
def keepFirst : List String → List String
  | [] => []
  | x :: xs => x :: keepFirst (xs.filter (fun y => y ≠ x))
termination_by l => l.length
decreasing_by
  simp only [List.length_cons]
  exact Nat.lt_succ_of_le (List.length_filter_le _ _)

/-- The source's seen-set loop computes `keepFirst`, relative to the already
seen elements. -/
theorem dedupGo_eq_keepFirst (seen : List String) (l : List String) :
    dedupGo seen l = keepFirst (l.filter (fun x => x ∉ seen)) := by
  induction l generalizing seen with
  | nil =>
    rw [List.filter_nil]
    simp [dedupGo, keepFirst]
  | cons x xs ih =>
    by_cases hx : x ∈ seen
    · have hd : decide (x ∉ seen) = false := by simp [hx]
      simp only [dedupGo, hx, if_true]
      rw [List.filter_cons, hd]
      simp only [Bool.false_eq_true, if_false]
      exact ih seen
    · have hd : decide (x ∉ seen) = true := by simp [hx]
      simp only [dedupGo, hx, if_false]
      rw [List.filter_cons, hd]
      simp only [if_true]
      rw [ih (x :: seen)]
      simp only [keepFirst]
      congr 1
      rw [List.filter_filter]
      congr 1
      refine List.filter_congr ?_
      intro a _
      have hiff : (a ∉ x :: seen) ↔ (a ≠ x ∧ a ∉ seen) := by
        simp [List.mem_cons, not_or]
      rw [show decide (a ∉ x :: seen) = decide (a ≠ x ∧ a ∉ seen) from
        decide_eq_decide.mpr hiff]
      by_cases h1 : a = x <;> by_cases h2 : a ∈ seen <;> simp [h1, h2]

/-- `keepFirst` returns a sublist of its input. -/
theorem keepFirst_sublist (l : List String) : (keepFirst l).Sublist l := by
  induction l using keepFirst.induct with
  | case1 => simp [keepFirst]
  | case2 x xs ih =>
    simp only [keepFirst]
    exact List.Sublist.cons₂ x (ih.trans (List.filter_sublist xs))

/-- `keepFirst` preserves membership. -/
theorem mem_keepFirst {a : String} {l : List String} : a ∈ keepFirst l ↔ a ∈ l := by
  induction l using keepFirst.induct with
  | case1 => simp [keepFirst]
  | case2 x xs ih =>
    simp only [keepFirst, List.mem_cons]
    rw [ih]
    by_cases hax : a = x
    · simp [hax]
    · simp [hax, List.mem_filter]

/-- `keepFirst` has no duplicates. -/
theorem nodup_keepFirst (l : List String) : (keepFirst l).Nodup := by
  induction l using keepFirst.induct with
  | case1 => simp [keepFirst]
  | case2 x xs ih =>
    simp only [keepFirst, List.nodup_cons]
    refine ⟨?_, ih⟩
    intro hx
    rw [mem_keepFirst, List.mem_filter] at hx
    simp at hx

/-- Claim C7: `extract_result_files` resolves each location independently
(`resolvedPaths`), omits locations that resolve to nothing, and returns the
resolved paths deduplicated preserving first-seen order: the result is the
first-occurrence deduplication of the resolved-path list, duplicate-free, a
sublist of it (so in its order), with the same members. -/
theorem C7_extract_dedup (res : ScanResult) (cfg : Cfg) (sys : Sys) :
    extract_result_files res cfg sys = keepFirst (resolvedPaths res.locations cfg sys) ∧
    (extract_result_files res cfg sys).Nodup ∧
    (extract_result_files res cfg sys).Sublist (resolvedPaths res.locations cfg sys) ∧
    ∀ p, p ∈ extract_result_files res cfg sys ↔ p ∈ resolvedPaths res.locations cfg sys := by
  have he : extract_result_files res cfg sys =
      keepFirst (resolvedPaths res.locations cfg sys) := by
    unfold extract_result_files
    rw [dedupGo_eq_keepFirst]
    congr 1
    apply List.filter_eq_self.mpr
    intro a _
    simp
  refine ⟨he, ?_, ?_, ?_⟩
  · rw [he]
    exact nodup_keepFirst _
  · rw [he]
    exact keepFirst_sublist _
  · intro p
    rw [he]
    exact mem_keepFirst

/-- A `file://` URI is a nonempty string. -/
theorem ne_empty_of_file_scheme {u : String} (h : strStartsWith u "file://" = true) :
    u ≠ "" := by
  intro he
  rw [he] at h
  exact absurd h (by decide)

/-- Claim C1: for an artifact whose URI has the `file://` scheme, when the
config's prefer-absolute flag is set and the percent-decoded path (with the
platform's drive-letter adjustment applied) is a nonempty existing regular
file, `resolve_artifact_location` returns exactly that decoded path,
short-circuiting the later tiers. -/
theorem C1_file_uri_preferred (art : Artifact) (cfg : Cfg) (sys : Sys) (u p : String)
    (h1 : art.uri = some u) (h2 : strStartsWith u "file://" = true)
    (h3 : cfg.prefer_absolute_uri = true)
    (h4 : file_from_file_uri sys.nt u = some p)
    (h5 : p ≠ "") (h6 : sys.isFile p = true) :
    resolve_artifact_location art cfg sys = some p := by
  have hne : ¬((u == "") = true) := by
    rw [beq_iff_eq]
    exact ne_empty_of_file_scheme h2
  have hp : (p == "") = false := beq_eq_false_iff_ne.mpr h5
  have htry : tryFileUri sys cfg u = some p := by
    unfold tryFileUri
    rw [h2, h3, h4]
    simp [hp, h6]
  simp only [resolve_artifact_location, h1]
  rw [if_neg hne, htry]

/-- Witness for C1 at a concrete artifact, config and filesystem. -/
theorem C1_file_uri_preferred_witness :
    resolve_artifact_location ⟨some "file:///tmp/a.c", none⟩ ⟨[], "/root", true⟩
      ⟨fun s => s == "/tmp/a.c", false⟩ = some "/tmp/a.c" :=
  C1_file_uri_preferred _ _ _ "file:///tmp/a.c" "/tmp/a.c"
    rfl (by decide) rfl (by decide) (by decide) (by decide)

/-- Claim C2: for an artifact with a relative (non-`file://`) URI whose
symbolic base token is present in the base map, resolution returns
`normpath(join(mapped_dir, uri-with-slashes))` when that is an existing
regular file, and otherwise falls through to `normpath(join(project_root,
uri))`, returned when that exists. -/
theorem C2_relative_base_mapping (art : Artifact) (cfg : Cfg) (sys : Sys) (u b d : String)
    (h1 : art.uri = some u) (hne : u ≠ "") (h2 : strStartsWith u "file://" = false)
    (h3 : art.uriBaseId = some b) (hb : b ≠ "")
    (hl : List.lookup b cfg.uriBaseId_map = some d) :
    (sys.isFile (normpath (pyJoin d (bslashToSlash u))) = true →
      resolve_artifact_location art cfg sys = some (normpath (pyJoin d (bslashToSlash u)))) ∧
    (sys.isFile (normpath (pyJoin d (bslashToSlash u))) = false →
      sys.isFile (normpath (pyJoin cfg.project_root u)) = true →
      resolve_artifact_location art cfg sys = some (normpath (pyJoin cfg.project_root u))) := by
  have hne' : ¬((u == "") = true) := by rw [beq_iff_eq]; exact hne
  have hb' : (b == "") = false := beq_eq_false_iff_ne.mpr hb
  have hrwb : resolve_with_base u (some b) cfg = normpath (pyJoin d (bslashToSlash u)) := by
    simp only [resolve_with_base, hb', hl, Bool.false_eq_true, if_false]
  have htry : tryFileUri sys cfg u = none := by
    unfold tryFileUri
    rw [h2]
    rfl
  constructor
  · intro hf
    simp only [resolve_artifact_location, h1, h3]
    rw [if_neg hne', htry, hrwb, if_pos hf]
  · intro hf1 hf2
    simp only [resolve_artifact_location, h1, h3]
    rw [if_neg hne', htry, hrwb, hf1]
    simp only [Bool.false_eq_true, if_false]
    rw [if_pos hf2]

/-- Witness for C2: both branches at concrete inputs (a backslashed relative
URI resolved through the base map, and one falling through to the project
root). -/
theorem C2_relative_base_mapping_witness :
    resolve_artifact_location ⟨some "src\\a.c", some "SRCROOT"⟩
        ⟨[("SRCROOT", "/base")], "/root", true⟩ ⟨fun s => s == "/base/src/a.c", false⟩ =
      some (normpath (pyJoin "/base" (bslashToSlash "src\\a.c"))) ∧
    resolve_artifact_location ⟨some "a.c", some "SRCROOT"⟩
        ⟨[("SRCROOT", "/base")], "/root", true⟩ ⟨fun s => s == "/root/a.c", false⟩ =
      some (normpath (pyJoin "/root" "a.c")) :=
  ⟨(C2_relative_base_mapping _ _ _ "src\\a.c" "SRCROOT" "/base"
      rfl (by decide) (by decide) rfl (by decide) (by decide)).1 (by decide),
   (C2_relative_base_mapping _ _ _ "a.c" "SRCROOT" "/base"
      rfl (by decide) (by decide) rfl (by decide) (by decide)).2 (by decide) (by decide)⟩

/-- Claim C3: for a `file://` URI, when neither the decoded path nor the
tier-2 and tier-3 joins are existing regular files, resolution returns the
decoded `file://` path even though it does not exist, whatever the
prefer-absolute flag is. -/
theorem C3_file_uri_last_resort (art : Artifact) (cfg : Cfg) (sys : Sys) (u p : String)
    (h1 : art.uri = some u) (h2 : strStartsWith u "file://" = true)
    (h4 : file_from_file_uri sys.nt u = some p)
    (h6 : sys.isFile p = false)
    (h7 : sys.isFile (resolve_with_base u art.uriBaseId cfg) = false)
    (h8 : sys.isFile (normpath (pyJoin cfg.project_root u)) = false) :
    resolve_artifact_location art cfg sys = some p := by
  have hne' : ¬((u == "") = true) := by
    rw [beq_iff_eq]
    exact ne_empty_of_file_scheme h2
  have htry : tryFileUri sys cfg u = none := by
    unfold tryFileUri
    split
    · rw [h4]
      simp [h6]
    · rfl
  simp only [resolve_artifact_location, h1]
  rw [if_neg hne', htry, h7]
  simp only [Bool.false_eq_true, if_false]
  rw [h8]
  simp only [Bool.false_eq_true, if_false]
  rw [h2]
  simp only [if_true]
  exact h4

/-- Witness for C3: a nonexistent `file://` target on an empty filesystem. -/
theorem C3_file_uri_last_resort_witness :
    resolve_artifact_location ⟨some "file:///nope/a.c", none⟩ ⟨[], "/root", true⟩
      ⟨fun _ => false, false⟩ = some "/nope/a.c" :=
  C3_file_uri_last_resort _ _ _ "file:///nope/a.c" "/nope/a.c"
    rfl (by decide) (by decide) rfl (by decide) rfl

/-- A list with `getLast? = some a` splits as `t ++ [a]`. -/
theorem getLast?_some_decomp {α : Type} {l : List α} {a : α} (h : l.getLast? = some a) :
    ∃ t, l = t ++ [a] :=
  ⟨l.dropLast, (List.dropLast_append_getLast? a (Option.mem_def.mpr h)).symm⟩

/-- `mergeStep` on a nonempty accumulator, coalescing case. -/
theorem mergeStep_last_merge {acc : List (Nat × Nat)} {last w : Nat × Nat}
    (hl : acc.getLast? = some last) (hse : w.1 ≤ last.2 + 1) :
    mergeStep acc w = acc.dropLast ++ [(last.1, max last.2 w.2)] := by
  unfold mergeStep
  rw [hl]
  exact if_pos hse

/-- `mergeStep` on a nonempty accumulator, new-range case. -/
theorem mergeStep_last_new {acc : List (Nat × Nat)} {last w : Nat × Nat}
    (hl : acc.getLast? = some last) (hse : ¬w.1 ≤ last.2 + 1) :
    mergeStep acc w = acc ++ [w] := by
  unfold mergeStep
  rw [hl]
  exact if_neg hse

/-- `mergeStep` on an empty accumulator. -/
theorem mergeStep_nil {acc : List (Nat × Nat)} {w : Nat × Nat}
    (hl : acc.getLast? = none) : mergeStep acc w = [w] := by
  unfold mergeStep
  rw [hl]

/-- One merge step preserves well-formedness of every range and strict
separation (`end + 1 < next start`) between consecutive merged ranges. -/
theorem mergeStep_inv {acc : List (Nat × Nat)} {w : Nat × Nat}
    (h1 : ∀ r ∈ acc, r.1 ≤ r.2)
    (h2 : acc.Chain' (fun a b => a.2 + 1 < b.1)) (hw : w.1 ≤ w.2) :
    (∀ r ∈ mergeStep acc w, r.1 ≤ r.2) ∧
    (mergeStep acc w).Chain' (fun a b => a.2 + 1 < b.1) := by
  cases hl : acc.getLast? with
  | none =>
    rw [mergeStep_nil hl]
    refine ⟨?_, List.chain'_singleton w⟩
    intro r hr
    rw [List.mem_singleton] at hr
    subst hr
    exact hw
  | some last =>
    obtain ⟨t, rfl⟩ := getLast?_some_decomp hl
    have hlast : last.1 ≤ last.2 := h1 last (by simp)
    have hchain := List.chain'_append.mp h2
    by_cases hse : w.1 ≤ last.2 + 1
    · rw [mergeStep_last_merge hl hse, List.dropLast_concat]
      constructor
      · intro r hr
        rcases List.mem_append.mp hr with h | h
        · exact h1 r (List.mem_append_left _ h)
        · rw [List.mem_singleton] at h
          subst h
          exact le_trans hlast (le_max_left _ _)
      · refine List.chain'_append.mpr ⟨hchain.1, List.chain'_singleton _, ?_⟩
        intro x hx y hy
        rw [List.head?_cons, Option.mem_def, Option.some_inj] at hy
        subst hy
        exact hchain.2.2 x hx last (by simp)
    · rw [mergeStep_last_new hl hse]
      constructor
      · intro r hr
        rcases List.mem_append.mp hr with h | h
        · exact h1 r h
        · rw [List.mem_singleton] at h
          subst h
          exact hw
      · refine List.chain'_append.mpr ⟨h2, List.chain'_singleton _, ?_⟩
        intro x hx y hy
        rw [List.getLast?_concat, Option.mem_def, Option.some_inj] at hx
        rw [List.head?_cons, Option.mem_def, Option.some_inj] at hy
        subst hx
        subst hy
        omega

/-- The merge loop, started from any invariant-satisfying accumulator,
yields well-formed, strictly separated ranges. -/
theorem mergeRanges_aux_inv (ws : List (Nat × Nat)) (acc : List (Nat × Nat))
    (hws : ∀ r ∈ ws, r.1 ≤ r.2)
    (h1 : ∀ r ∈ acc, r.1 ≤ r.2)
    (h2 : acc.Chain' (fun a b => a.2 + 1 < b.1)) :
    (∀ r ∈ ws.foldl mergeStep acc, r.1 ≤ r.2) ∧
    (ws.foldl mergeStep acc).Chain' (fun a b => a.2 + 1 < b.1) := by
  induction ws generalizing acc with
  | nil => exact ⟨h1, h2⟩
  | cons w ws ih =>
    rw [List.foldl_cons]
    obtain ⟨ha, hb⟩ := mergeStep_inv h1 h2 (hws w (by simp))
    exact ih (mergeStep acc w) (fun r hr => hws r (by simp [hr])) ha hb

/-- Claim C4: for an ascending list of hit lines all below the line count,
each hit yields the window `[h - w, h + w]` clamped to the file bounds, and
the left-to-right merge (coalescing a window whose start is at most the
current end plus one, taking the max of the ends) yields ordered,
non-overlapping ranges: every merged range has `start ≤ end`, and each range
ends strictly more than one line before the next begins. -/
theorem C4_window_merge (hits : List Nat) (w n : Nat)
    (_hsorted : hits.Chain' (· ≤ ·)) (hlt : ∀ h ∈ hits, h < n) :
    (∀ r ∈ mergeRanges (hitWindows w n hits), r.1 ≤ r.2) ∧
    (mergeRanges (hitWindows w n hits)).Chain' (fun a b => a.2 + 1 < b.1) := by
  unfold mergeRanges
  apply mergeRanges_aux_inv
  · intro r hr
    unfold hitWindows at hr
    obtain ⟨h, hh, rfl⟩ := List.mem_map.mp hr
    have := hlt h hh
    simp only
    omega
  · intro r hr
    exact absurd hr (List.not_mem_nil r)
  · exact List.chain'_nil

/-- Witness for C4, with the claim's concrete instance: hits at 1-indexed
lines 5 and 7 (0-indexed 4 and 6) with window 2 in a 9-line file merge into
the single region `[3, 9]` (0-indexed `(2, 8)`), also end to end through
`select_suspicious`. -/
theorem C4_window_merge_witness :
    ((∀ r ∈ mergeRanges (hitWindows 2 9 [4, 6]), r.1 ≤ r.2) ∧
      (mergeRanges (hitWindows 2 9 [4, 6])).Chain' (fun a b => a.2 + 1 < b.1)) ∧
    mergeRanges (hitWindows 2 9 [4, 6]) = [(2, 8)] ∧
    select_suspicious ["eval"] "l1\nl2\nl3\nl4\neval a\nl6\neval b\nl8\nl9" "q" 2 3 =
      [⟨3, 9, "l3\nl4\neval a\nl6\neval b\nl8\nl9"⟩] :=
  ⟨C4_window_merge [4, 6] 2 9 (by norm_num [List.chain'_cons]) (by decide), by decide, by decide⟩

/-- Claim C5: with a nonnegative `max_snippets`, `select_suspicious` returns
exactly the first `max_snippets` merged ranges (so at most `max_snippets`
regions), each emitted with 1-indexed inclusive bounds `(s+1, e+1)` and text
equal to lines `s..e` joined by newlines. -/
theorem C5_truncation_and_emission (keywords : List String) (content q : String)
    (cw m : Int) (hm : 0 ≤ m) :
    select_suspicious keywords content q cw m =
      ((selRanges keywords q cw (splitlines content)).take m.toNat).map
        (fun se => ⟨se.1 + 1, se.2 + 1,
          joinWith "\n" (((splitlines content).drop se.1).take (se.2 + 1 - se.1))⟩) ∧
    (select_suspicious keywords content q cw m).length ≤ m.toNat := by
  have he : select_suspicious keywords content q cw m =
      ((selRanges keywords q cw (splitlines content)).take m.toNat).map
        (mkSnippet (splitlines content)) := by
    show (pyTakeSlice m (selRanges keywords q cw (splitlines content))).map
      (mkSnippet (splitlines content)) = _
    unfold pyTakeSlice
    rw [if_neg (by omega)]
  refine ⟨he, ?_⟩
  rw [he, List.length_map, List.length_take]
  omega

/-- Witness for C5: two merged ranges truncated to the first one. -/
theorem C5_truncation_and_emission_witness :
    select_suspicious ["x"] "x\na\nb\nc\nd\nx\ng" "" 1 1 =
      ((selRanges ["x"] "" 1 (splitlines "x\na\nb\nc\nd\nx\ng")).take (1 : Int).toNat).map
        (fun se => ⟨se.1 + 1, se.2 + 1,
          joinWith "\n" (((splitlines "x\na\nb\nc\nd\nx\ng").drop se.1).take
            (se.2 + 1 - se.1))⟩) ∧
    (select_suspicious ["x"] "x\na\nb\nc\nd\nx\ng" "" 1 1).length ≤ (1 : Int).toNat :=
  C5_truncation_and_emission ["x"] "x\na\nb\nc\nd\nx\ng" "" 1 1 (by decide)

/-- `List.filterMap` of a constantly-`none` function is empty. -/
theorem filterMap_const_none {α β : Type} (l : List α) :
    l.filterMap (fun _ => (none : Option β)) = [] := by
  induction l with
  | nil => rfl
  | cons x xs ih => simp [List.filterMap_cons, ih]

/-- Claim C6: the fallback scan runs exactly when the primary keyword scan
finds no hit line; it uses precisely the fallback keywords that occur in the
lowercased rule query; and if the primary scan is empty and no fallback
keyword occurs in the query — or the file is empty — zero regions are
returned. -/
theorem C6_fallback_scan (rules : List String) (q content : String) :
    (primaryHits rules (splitlines content) ≠ [] →
      usedHits rules q (splitlines content) = primaryHits rules (splitlines content)) ∧
    (primaryHits rules (splitlines content) = [] →
      usedHits rules q (splitlines content) = fallbackHits q (splitlines content)) ∧
    (primaryHits rules (splitlines content) = [] →
      fallbackKeywords.filter (fun k => pyIn k (strLower q)) = [] →
      ∀ cw m : Int, select_suspicious rules content q cw m = []) ∧
    (content = "" → ∀ cw m : Int, select_suspicious rules content q cw m = []) := by
  refine ⟨?_, ?_, ?_, ?_⟩
  · intro h
    show (if primaryHits rules (splitlines content) = [] then fallbackHits q (splitlines content)
      else primaryHits rules (splitlines content)) = _
    rw [if_neg h]
  · intro h
    show (if primaryHits rules (splitlines content) = [] then fallbackHits q (splitlines content)
      else primaryHits rules (splitlines content)) = _
    rw [if_pos h]
  · intro h hf cw m
    have hfb : fallbackHits q (splitlines content) = [] := by
      unfold fallbackHits
      rw [hf]
      simp only [List.any_nil, Bool.false_eq_true, if_false]
      exact filterMap_const_none _
    have hu : usedHits rules q (splitlines content) = [] := by
      show (if primaryHits rules (splitlines content) = [] then fallbackHits q (splitlines content)
        else primaryHits rules (splitlines content)) = []
      rw [if_pos h, hfb]
    have h0 : selRanges rules q cw (splitlines content) = [] := by
      unfold selRanges hitWindows
      rw [hu]
      rfl
    show (pyTakeSlice m (selRanges rules q cw (splitlines content))).map
      (mkSnippet (splitlines content)) = []
    rw [h0]
    simp [pyTakeSlice]
  · intro h cw m
    subst h
    have h0 : selRanges rules q cw (splitlines "") = [] := rfl
    show (pyTakeSlice m (selRanges rules q cw (splitlines ""))).map
      (mkSnippet (splitlines "")) = []
    rw [h0]
    simp [pyTakeSlice]

/-- Witness for C6: a primary hit suppressing the fallback; the fallback
taking over with a query-gated keyword; no hits and a keyword-free query
giving zero regions; and an empty file giving zero regions. -/
theorem C6_fallback_scan_witness :
    usedHits ["eval"] "q" (splitlines "x\neval y") =
      primaryHits ["eval"] (splitlines "x\neval y") ∧
    usedHits [] "uses Regex stuff" (splitlines "a regex here\nb") =
      fallbackHits "uses Regex stuff" (splitlines "a regex here\nb") ∧
    select_suspicious ["zz"] "a\nb" "nothing relevant" 1 3 = [] ∧
    select_suspicious ["k"] "" "q" 10 3 = [] :=
  ⟨(C6_fallback_scan ["eval"] "q" "x\neval y").1 (by decide),
   (C6_fallback_scan [] "uses Regex stuff" "a regex here\nb").2.1 (by decide),
   (C6_fallback_scan ["zz"] "nothing relevant" "a\nb").2.2.1 (by decide) (by decide) 1 3,
   (C6_fallback_scan ["k"] "q" "").2.2.2 rfl 10 3⟩

/-- Claim C10: with a strictly negative `max_snippets`, `select_suspicious`
returns the first `k - |max_snippets|` merged ranges (truncated subtraction,
so `max(0, k - |max_snippets|)`), per Python negative-slice semantics — the
"at most `max_snippets`" cap does not apply and no default is substituted. -/
theorem C10_negative_max_snippets (rules : List String) (content q : String)
    (cw m : Int) (hm : m < 0) :
    select_suspicious rules content q cw m =
      ((selRanges rules q cw (splitlines content)).take
        ((selRanges rules q cw (splitlines content)).length - m.natAbs)).map
        (mkSnippet (splitlines content)) ∧
    (select_suspicious rules content q cw m).length =
      (selRanges rules q cw (splitlines content)).length - m.natAbs := by
  have he : pyTakeSlice m (selRanges rules q cw (splitlines content)) =
      (selRanges rules q cw (splitlines content)).take
        ((selRanges rules q cw (splitlines content)).length - m.natAbs) := by
    unfold pyTakeSlice
    rw [if_pos hm]
    congr 1
    omega
  constructor
  · show (pyTakeSlice m (selRanges rules q cw (splitlines content))).map
      (mkSnippet (splitlines content)) = _
    rw [he]
  · show ((pyTakeSlice m (selRanges rules q cw (splitlines content))).map
      (mkSnippet (splitlines content))).length = _
    rw [he, List.length_map, List.length_take]
    omega

/-- Witness for C10: two merged ranges and `max_snippets = -1` keep exactly
the first range. -/
theorem C10_negative_max_snippets_witness :
    (select_suspicious ["x"] "x\na\nb\nc\nd\nx\ng" "" 1 (-1) =
      ((selRanges ["x"] "" 1 (splitlines "x\na\nb\nc\nd\nx\ng")).take
        ((selRanges ["x"] "" 1 (splitlines "x\na\nb\nc\nd\nx\ng")).length -
          (-1 : Int).natAbs)).map (mkSnippet (splitlines "x\na\nb\nc\nd\nx\ng")) ∧
    (select_suspicious ["x"] "x\na\nb\nc\nd\nx\ng" "" 1 (-1)).length =
      (selRanges ["x"] "" 1 (splitlines "x\na\nb\nc\nd\nx\ng")).length -
        (-1 : Int).natAbs) ∧
    select_suspicious ["x"] "x\na\nb\nc\nd\nx\ng" "" 1 (-1) = [⟨1, 2, "x\na"⟩] :=
  ⟨C10_negative_max_snippets ["x"] "x\na\nb\nc\nd\nx\ng" "" 1 (-1) (by decide), by decide⟩

/-- Counterexample to claim C8 as stated: with a negative character cap the
returned text can be longer than the cap (`safe_read_text` on the successful
read `"abc"` with `max_chars = -1` returns `"ab"`, of length `2 > -1`). -/
theorem C8_cap_counterexample :
    ¬(((safe_read_text (some "abc") (-1)).length : Int) ≤ -1) := by decide

/-- Claim C8 (amended: the character cap is only guaranteed for a nonnegative
`max_chars`): `safe_read_text` never propagates a failure — any failed read
yields the empty string — and for `0 ≤ max_chars` the returned text has at
most `max_chars` characters. -/
theorem C8_read_failure_and_cap (r : Option String) (m : Int) :
    (r = none → safe_read_text r m = "") ∧
    (0 ≤ m → ((safe_read_text r m).length : Int) ≤ m) := by
  constructor
  · intro h
    subst h
    rfl
  · intro hm
    cases r with
    | none =>
      show ((("" : String).length : Nat) : Int) ≤ m
      simpa using hm
    | some s =>
      by_cases hlen : (s.length : Int) > m
      · have he : safe_read_text (some s) m = String.mk (s.toList.take m.toNat) := by
          show (if (s.length : Int) > m then String.mk (pyTakeSlice m s.toList) else s) = _
          unfold pyTakeSlice
          rw [if_pos hlen, if_neg (by omega)]
        rw [he]
        have h1 : (String.mk (s.toList.take m.toNat)).length = (s.toList.take m.toNat).length := rfl
        rw [h1, List.length_take]
        omega
      · have he : safe_read_text (some s) m = s := by
          show (if (s.length : Int) > m then String.mk (pyTakeSlice m s.toList) else s) = _
          rw [if_neg hlen]
        rw [he]
        omega

/-- Witness for C8: a failing read yields the empty string, and a successful
read under a nonnegative cap respects it. -/
theorem C8_read_failure_and_cap_witness :
    safe_read_text none 5 = "" ∧ ((safe_read_text (some "abcdef") 3).length : Int) ≤ 3 :=
  ⟨(C8_read_failure_and_cap none 5).1 rfl,
   (C8_read_failure_and_cap (some "abcdef") 3).2 (by decide)⟩
